import Mathlib

/-!
Verification of the SHL catalog crawler (`new_scrapper2.py`).

The definitions below are a shallow embedding of the scraper's pure logic:
HTML nodes are abstracted to the fields the code actually reads (first link
of a cell, presence of check icons, cell text, ...), network fetches and
page parses become oracle functions passed in as parameters, and Python's
`urljoin` is modelled for the fixed catalog base URL (dot-segment
normalisation is omitted; no claim depends on it).  Machine reals
(`random.random()` draws, cache ages in days) are modelled as rationals.
-/

namespace SHL

/-- The `Assessment` record schema (pydantic model `Assessment` and the raw
dicts produced by the row/card parsers share these exact fields). -/
structure Assessment where
  name : String
  url : String
  remote_testing : Bool
  adaptive_irt : Bool
  duration : Option Nat
  test_type : List String
deriving DecidableEq, Repr

/-- `SHLScraper.BASE_URL`. -/
def BASE_URL : String := "https://www.shl.com/solutions/products/product-catalog/"

/-- `SHLScraper.MAX_RETRIES`. -/
def MAX_RETRIES : Nat := 5

/-- `SHLScraper.MIN_RETRY_DELAY` (seconds), as a rational. -/
def MIN_RETRY_DELAY : ℚ := 2

/-- `SHLScraper.MAX_RETRY_DELAY` (seconds), as a rational. -/
def MAX_RETRY_DELAY : ℚ := 10

/-- `p` char-list-prefix of `s` (Python `str.startswith` on the underlying
character sequences). -/
def charsLe : List Char → List Char → Bool
  | [], _ => true
  | _ :: _, [] => false
  | a :: as, b :: bs => a == b && charsLe as bs

/-- Python `s.startswith(p)`. -/
def strStarts (s p : String) : Bool := charsLe p.toList s.toList

/-- `n` occurs as a contiguous sub-sequence of `h` (Python `n in h` on
strings). -/
def isSub : List Char → List Char → Bool
  | n, [] => n.isEmpty
  | n, c :: t => charsLe n (c :: t) || isSub n t

/-- Python `s.lower()` (ASCII-adequate). -/
def strLower (s : String) : String := String.mk (s.toList.map Char.toLower)

/-- Python `s.strip()`: drop leading and trailing whitespace. -/
def strTrim (s : String) : String :=
  String.mk (((s.toList.dropWhile Char.isWhitespace).reverse.dropWhile
    Char.isWhitespace).reverse)

/-- Python `c in s` for a single character. -/
def strHasChar (s : String) (c : Char) : Bool := s.toList.contains c

/-- Scheme detection of `urllib.parse` on the tail of a reference: true when
an initial run of scheme characters is terminated by a colon. -/
def hasSchemeAux : List Char → Bool
  | [] => false
  | c :: rest =>
    if c = ':' then true
    else if c.isAlphanum || c = '+' || c = '-' || c = '.' then hasSchemeAux rest
    else false

/-- The reference `s` carries its own scheme (`javascript:`, `mailto:`, ...),
so `urljoin` returns it unchanged. -/
def hasSchemeB (s : String) : Bool :=
  match s.toList with
  | [] => false
  | c :: rest => c.isAlpha && hasSchemeAux rest

/-- Python `urljoin(BASE_URL, href)`, specialised to the fixed catalog base
(whose path ends in `/` and has no query or fragment).  Scheme-carrying
references are returned unchanged; network-path references inherit the base
scheme; absolute paths resolve against the host; anything else (plain
relative paths, `?query`, `#fragment`) is appended to the base.  Dot-segment
normalisation is omitted. -/
def urljoin_base (href : String) : String :=
  if hasSchemeB href then href
  else if strStarts href "//" then "https:" ++ href
  else if strStarts href "/" then "https://www.shl.com" ++ href
  else BASE_URL ++ href

/-- The fields of a `<td>` cell that `_parse_table_row` reads: the first
`<a>` inside it (its text and `href`), whether a check image/icon element is
present, and the cell's text. -/
structure Cell where
  link : Option (String × String)
  hasCheckElem : Bool
  text : String
deriving DecidableEq, Repr

/-- The check-mark test applied to cells 1 and 2: an `img`/check-icon
element, or a `✓` glyph in the cell text (`False` when the cell is
missing). -/
def checkCell : Option Cell → Bool
  | none => false
  | some c => c.hasCheckElem || strHasChar c.text '✓'

/-- The fixed single-letter test-type code table (`type_map`). -/
def type_map : Char → Option String
  | 'A' => some "Ability & Aptitude"
  | 'B' => some "Biodata & Situational Judgement"
  | 'C' => some "Competencies"
  | 'D' => some "Development & 360"
  | 'E' => some "Assessment Exercises"
  | 'K' => some "Knowledge & Skills"
  | 'P' => some "Personality & Behavior"
  | 'S' => some "Simulations"
  | _ => none

/-- Python `text.split(",")` on the character list: at least one piece is
always produced. -/
def splitCommaChars : List Char → List (List Char)
  | [] => [[]]
  | c :: rest =>
    if c = ',' then [] :: splitCommaChars rest
    else
      match splitCommaChars rest with
      | [] => [[c]]
      | p :: ps => (c :: p) :: ps

/-- Python `s.split(",")`. -/
def splitComma (s : String) : List String :=
  (splitCommaChars s.toList).map (fun cs => String.mk cs)

/-- The technology keywords of the "special case for technical skills"
loop. -/
def techKeywords : List String := ["Java", "Python", "SQL", "JavaScript", ".NET", "C#"]

/-- The technical-skills loop of `_parse_table_row`: for each keyword
occurring (case-insensitively) in the record name, append
`"Knowledge & Skills"` and `"Technical Skills"` unless already present. -/
def add_tech_skills (name : String) (ts : List String) : List String :=
  techKeywords.foldl
    (fun acc tech =>
      if isSub (strLower tech).toList (strLower name).toList then
        let acc2 := if "Knowledge & Skills" ∈ acc then acc else acc ++ ["Knowledge & Skills"]
        if "Technical Skills" ∈ acc2 then acc2 else acc2 ++ ["Technical Skills"]
      else acc)
    ts

/-- The test-type logic of `_parse_table_row` for a present column-3 cell:
single-letter codes first; if none matched, comma-split free text, else the
whole cell; then the technical-skills loop. -/
def parse_test_types (text name : String) : List String :=
  let codes := text.toList.filterMap type_map
  let base :=
    if codes ≠ [] then codes
    else if text ≠ "" then
      if strHasChar text ',' then (splitComma text).map strTrim
      else [text]
    else []
  add_tech_skills name base

/-- `SHLScraper._parse_table_row`: column 0 must hold a link (else the row
is dropped); the name is the link text stripped; a non-empty `href` not
starting with `http` is resolved through `urljoin`; columns 1 and 2 are
check-mark indicators; column 3 yields the test types, with an
`"Unspecified"` fallback. -/
def parse_table_row (cells : List Cell) : Option Assessment :=
  match cells.head? with
  | none => none
  | some c0 =>
    match c0.link with
    | none => none
    | some (t, h) =>
      let name := strTrim t
      let url := if h ≠ "" && !strStarts h "http" then urljoin_base h else h
      let remote := checkCell cells[1]?
      let adaptive := checkCell cells[2]?
      let tt :=
        match cells[3]? with
        | none => []
        | some c3 => parse_test_types (strTrim c3.text) name
      let tt2 := if tt = [] then ["Unspecified"] else tt
      some ⟨name, url, remote, adaptive, none, tt2⟩

/-- Digit-string to number (Python `int` on a run of decimal digits). -/
def natOfDigits (ds : List Char) : Nat :=
  ds.foldl (fun n c => n * 10 + (c.toNat - 48)) 0

/-- Whether the characters start with `min`, case-insensitively. -/
def minTokenAt : List Char → Bool
  | a :: b :: c :: _ => a.toLower == 'm' && b.toLower == 'i' && c.toLower == 'n'
  | _ => false

/-- A match of the regex `(\d+)\s*min` anchored at the current position:
a maximal run of digits, optional whitespace, then `min`
(case-insensitively); yields the captured number. -/
def numMinAt (cs : List Char) : Option Nat :=
  match cs.span Char.isDigit with
  | (ds, rest) =>
    if ds.isEmpty then none
    else if minTokenAt (rest.dropWhile Char.isWhitespace) then some (natOfDigits ds)
    else none

/-- `re.search(r'(\d+)\s*min', s, IGNORECASE)`: the match at the leftmost
possible start position wins. -/
def searchNumMin : List Char → Option Nat
  | [] => none
  | c :: rest =>
    match numMinAt (c :: rest) with
    | some n => some n
    | none => searchNumMin rest

/-- The fields of a product card that `_parse_product_card` reads: the text
of the first heading/title element, the `href` of the first `<a>`, the text
of the type element, the text of the duration element, and the presence of
remote/adaptive class hints. -/
structure Card where
  titleText : Option String
  linkHref : Option String
  typeText : Option String
  durationText : Option String
  hasRemoteClass : Bool
  hasAdaptiveClass : Bool
deriving DecidableEq, Repr

/-- `SHLScraper._parse_product_card`: name from the title element (stripped,
`""` when absent); URL resolved exactly as in the row parser; test types by
comma-splitting the type element's stripped text (empty list when the
element is absent); duration from a `(\d+)\s*min` search over the duration
element's stripped text; the card is dropped unless both name and URL are
non-empty. -/
def parse_product_card (card : Card) : Option Assessment :=
  let name := (card.titleText.map strTrim).getD ""
  let url0 := (card.linkHref.getD "")
  let url := if url0 ≠ "" && !strStarts url0 "http" then urljoin_base url0 else url0
  let test_types :=
    match card.typeText with
    | none => []
    | some t => (splitComma (strTrim t)).map strTrim
  let duration :=
    match card.durationText with
    | none => none
    | some t => searchNumMin (strTrim t).toList
  if name ≠ "" && url ≠ "" then
    some ⟨name, url, card.hasRemoteClass, card.hasAdaptiveClass, duration, test_types⟩
  else none

/-- The URL-keyed first-wins deduplication of
`scrape_all_shl_assessments` (lines 500–506): the Python dict keyed on
`assessment["url"]`, inserting only unseen keys, enumerated in insertion
order. -/
def dedup_go (seen : List String) : List Assessment → List Assessment
  | [] => []
  | r :: rest =>
    if seen.contains r.url then dedup_go seen rest
    else r :: dedup_go (r.url :: seen) rest

/-- `unique_assessments` construction plus `list(unique_assessments.values())`. -/
def dedup_unique_by_url (rs : List Assessment) : List Assessment :=
  dedup_go [] rs

/-- The duration pass of `scrape_all_shl_assessments` (lines 509–519): a
duration is computed for every record via `extract_duration(a["url"])`
(modelled by the oracle `enrich`), and then assigned index-by-index,
overwriting whatever was there. -/
def assign_durations (enrich : String → Option Nat) (rs : List Assessment) :
    List Assessment :=
  let durations := rs.map (fun a => enrich a.url)
  (rs.zip durations).map (fun p => { p.1 with duration := p.2 })

/-- The record-assembly tail of `SHLScraper.scrape_all_shl_assessments`
(lines 500–522): dedup by URL, then the duration pass. -/
def scrape_output (enrich : String → Option Nat) (raw : List Assessment) :
    List Assessment :=
  assign_durations enrich (dedup_unique_by_url raw)

/-- Agreement on every field except `duration`. -/
def sameNonDuration (a b : Assessment) : Prop :=
  a.name = b.name ∧ a.url = b.url ∧ a.remote_testing = b.remote_testing ∧
    a.adaptive_irt = b.adaptive_irt ∧ a.test_type = b.test_type

/-- `fetch_with_retry`'s loop body, on the remaining iteration count;
`f attempt` is the outcome of the attempt numbered `attempt` (0-based):
`ok` models a successful fetch, `error` a raised exception.  Returns the
outcome together with the number of attempts performed. -/
def retry_go (f : Nat → Except String String) : Nat → Except String String × Nat
  | 0 => (Except.error "", 0)
  | r + 1 =>
    let attempt := MAX_RETRIES - (r + 1)
    match f attempt with
    | Except.ok s => (Except.ok s, attempt + 1)
    | Except.error e =>
      if attempt < MAX_RETRIES - 1 then retry_go f r
      else (Except.error e, attempt + 1)

/-- `SHLScraper.fetch_with_retry`: `for attempt in range(MAX_RETRIES)`,
return on success, re-raise the last exception on the final attempt. -/
def fetch_with_retry (f : Nat → Except String String) : Except String String × Nat :=
  retry_go f MAX_RETRIES

/-- The jitter multiplier `(0.5 + random.random())` for a draw `r ∈ [0,1)`. -/
def jitter_factor (r : ℚ) : ℚ := 1 / 2 + r

/-- The backoff delay computed on a failed attempt (line 107):
`min(MAX_RETRY_DELAY, MIN_RETRY_DELAY * 2 ** attempt) * (0.5 + random.random())`. -/
def backoff_delay (attempt : Nat) (r : ℚ) : ℚ :=
  min MAX_RETRY_DELAY (MIN_RETRY_DELAY * 2 ^ attempt) * jitter_factor r

/-- Result of one `scrape_page` call: `out = none` models the call raising
(its own fetch failed); `visited` is the updated `processed_urls` set;
`fetches` records every fetch attempt with the depth it was issued at. -/
structure PageResult where
  out : Option (List Assessment)
  visited : List String
  fetches : List (String × Nat)
deriving Repr

/-- Result of the pagination loop inside `scrape_page`. -/
structure ChildrenResult where
  records : List Assessment
  visited : List String
  fetches : List (String × Nat)
deriving Repr

mutual
/-- `SHLScraper.scrape_page`: fetch the page (`fetch url = none` models
`fetch_with_retry` raising), parse its records (`tableOf`), and while
`current_depth < max_depth` discover pagination URLs (`disc`, filtered
against `processed_urls` as `detect_pagination` does) and recurse. -/
def scrape_page (fetch : String → Option String) (tableOf : String → List Assessment)
    (disc : String → List String) (maxDepth : Nat) (url : String) (depth : Nat)
    (visited : List String) : PageResult :=
  match fetch url with
  | none => ⟨none, visited, [(url, depth)]⟩
  | some html =>
    let recs := tableOf html
    if h : depth < maxDepth then
      let pag := (disc html).filter (fun u => !visited.contains u)
      let cr := scrape_children fetch tableOf disc maxDepth pag depth visited
      ⟨some (recs ++ cr.records), cr.visited, (url, depth) :: cr.fetches⟩
    else
      ⟨some recs, visited, [(url, depth)]⟩
termination_by (maxDepth + 1 - depth, 0)

/-- The `for pagination_url in pagination_urls` loop of `scrape_page`: skip
URLs already processed, mark the URL visited before recursing at
`depth + 1`, and absorb a child's failure (`out = none`) as an empty
contribution. -/
def scrape_children (fetch : String → Option String) (tableOf : String → List Assessment)
    (disc : String → List String) (maxDepth : Nat) (urls : List String) (depth : Nat)
    (visited : List String) : ChildrenResult :=
  match urls with
  | [] => ⟨[], visited, []⟩
  | u :: rest =>
    if visited.contains u then
      scrape_children fetch tableOf disc maxDepth rest depth visited
    else
      let pr := scrape_page fetch tableOf disc maxDepth u (depth + 1) (u :: visited)
      let cr := scrape_children fetch tableOf disc maxDepth rest depth pr.visited
      ⟨pr.out.getD [] ++ cr.records, cr.visited, pr.fetches ++ cr.fetches⟩
termination_by (maxDepth - depth, urls.length + 1)
end

/-- The fixed sample data of `load_sample_data`. -/
def sample_data : List Assessment :=
  [⟨"Verify Numerical Reasoning Test",
    "https://www.shl.com/solutions/products/verify-numerical-reasoning-test/",
    true, false, some 25, ["Ability & Aptitude", "Numerical Reasoning"]⟩,
   ⟨"Verify Verbal Reasoning Test",
    "https://www.shl.com/solutions/products/verify-verbal-reasoning-test/",
    true, false, some 25, ["Ability & Aptitude", "Verbal Reasoning"]⟩,
   ⟨"Verify General Ability Test",
    "https://www.shl.com/solutions/products/verify-general-ability-test/",
    true, false, some 36,
    ["Ability & Aptitude", "Numerical Reasoning", "Verbal Reasoning", "Inductive Reasoning"]⟩,
   ⟨"Work Strengths Questionnaire",
    "https://www.shl.com/solutions/products/work-strengths-questionnaire/",
    true, true, some 25, ["Personality & Behavior"]⟩,
   ⟨"ADEPT-15 Personality Assessment",
    "https://www.shl.com/solutions/products/adept-15-personality-assessment/",
    true, true, some 25, ["Personality & Behavior"]⟩]

/-- Outcome of the top-level entry point: the returned record list, the
`freshly_scraped` flag, and whether the cache files were written. -/
structure CrawlOutcome where
  records : List Assessment
  freshly_scraped : Bool
  saved_cache : Bool
deriving DecidableEq, Repr

/-- The cache-reuse test of the module-level `scrape_all_shl_assessments`
(line 671): more than 5 records and younger than 7 days. -/
def cache_usable (recs : List Assessment) (age_days : ℚ) : Bool :=
  decide (5 < recs.length) && decide (age_days < (7 : ℚ))

/-- The fresh-scrape branch (lines 679–695): a non-empty scrape is saved and
returned as fresh; an empty scrape or a raised scrape error falls through to
the sample data with `freshly_scraped = False`. -/
def fresh_scrape_path (crawl : Except Unit (List Assessment)) : CrawlOutcome :=
  match crawl with
  | Except.ok as => if as.isEmpty then ⟨sample_data, false, false⟩ else ⟨as, true, true⟩
  | Except.error _ => ⟨sample_data, false, false⟩

/-- The module-level `scrape_all_shl_assessments(force_refresh)`:
`cache = some (records, age_days)` models a readable `shl_assessments.json`
(a missing or unreadable file is `none`); `crawl` is the outcome of the
fresh scrape, consulted only when the cache path does not return. -/
def scrape_all_shl_assessments (force_refresh : Bool)
    (cache : Option (List Assessment × ℚ)) (crawl : Except Unit (List Assessment)) :
    CrawlOutcome :=
  match force_refresh, cache with
  | false, some (recs, age) =>
    if cache_usable recs age then ⟨recs, false, false⟩ else fresh_scrape_path crawl
  | _, _ => fresh_scrape_path crawl

/-- The fresh-scrape path is reached: `force_refresh` is set, or there is no
readable cache, or the cache fails the freshness test. -/
def reaches_fresh (force_refresh : Bool) (cache : Option (List Assessment × ℚ)) : Prop :=
  force_refresh = true ∨ cache = none ∨
    ∀ c, cache = some c → cache_usable c.1 c.2 = false

end SHL

namespace SHL

/-- A character-list prefix of `a` is a prefix of `a ++ b`. -/
theorem charsLe_append (p a b : List Char) (h : charsLe p a = true) :
    charsLe p (a ++ b) = true := by
  induction p generalizing a with
  | nil => simp [charsLe]
  | cons c cs ih =>
    cases a with
    | nil => simp [charsLe] at h
    | cons x xs =>
      simp only [charsLe, List.cons_append, Bool.and_eq_true] at h ⊢
      exact ⟨h.1, ih xs h.2⟩

/-- `startswith` is stable under appending a suffix. -/
theorem strStarts_append (a b p : String) (h : strStarts a p = true) :
    strStarts (a ++ b) p = true := by
  unfold strStarts at h ⊢
  exact charsLe_append _ _ _ h

/-- Any scheme-less reference resolves through `urljoin` to an `http`-prefixed
URL. -/
theorem urljoin_base_starts_http (h : String) (hs : hasSchemeB h = false) :
    strStarts (urljoin_base h) "http" = true := by
  unfold urljoin_base
  rw [hs]
  simp only [Bool.false_eq_true, if_false]
  split_ifs with h1 h2
  · exact strStarts_append "https:" h "http" (by decide)
  · exact strStarts_append "https://www.shl.com" h "http" (by decide)
  · exact strStarts_append BASE_URL h "http" (by decide)

/-- C4: `fetch_with_retry` makes at most `MAX_RETRIES = 5` attempts; if the
underlying fetch fails on attempts 1–4 (0-based 0–3) and succeeds on the
5th, the success is returned after exactly 5 attempts; if all 5 attempts
fail, the 5th attempt's exception is re-raised after exactly 5 attempts and
no 6th attempt is performed. -/
theorem fetch_with_retry_spec (f : Nat → Except String String) :
    (fetch_with_retry f).2 ≤ 5 ∧
      (∀ s : String, (∀ i, i < 4 → ∃ e, f i = Except.error e) → f 4 = Except.ok s →
        fetch_with_retry f = (Except.ok s, 5)) ∧
      ((∀ i, i < 5 → ∃ e, f i = Except.error e) →
        ∃ e, f 4 = Except.error e ∧ fetch_with_retry f = (Except.error e, 5)) := by
  refine ⟨?_, ?_, ?_⟩
  · cases hf0 : f 0 <;> cases hf1 : f 1 <;> cases hf2 : f 2 <;> cases hf3 : f 3 <;>
      cases hf4 : f 4 <;>
      simp [fetch_with_retry, retry_go, MAX_RETRIES, hf0, hf1, hf2, hf3, hf4]
  · intro s hfail hok
    obtain ⟨e0, h0⟩ := hfail 0 (by omega)
    obtain ⟨e1, h1⟩ := hfail 1 (by omega)
    obtain ⟨e2, h2⟩ := hfail 2 (by omega)
    obtain ⟨e3, h3⟩ := hfail 3 (by omega)
    simp [fetch_with_retry, retry_go, MAX_RETRIES, h0, h1, h2, h3, hok]
  · intro hfail
    obtain ⟨e0, h0⟩ := hfail 0 (by omega)
    obtain ⟨e1, h1⟩ := hfail 1 (by omega)
    obtain ⟨e2, h2⟩ := hfail 2 (by omega)
    obtain ⟨e3, h3⟩ := hfail 3 (by omega)
    obtain ⟨e4, h4⟩ := hfail 4 (by omega)
    exact ⟨e4, h4, by simp [fetch_with_retry, retry_go, MAX_RETRIES, h0, h1, h2, h3, h4]⟩

/-- Witness for C4: with a fetch that fails on the first four attempts and
succeeds on the fifth, `fetch_with_retry` returns the success after exactly
5 attempts. -/
theorem fetch_with_retry_spec_witness :
    fetch_with_retry (fun i => if i < 4 then Except.error "boom" else Except.ok "html")
      = (Except.ok "html", 5) :=
  (fetch_with_retry_spec (fun i => if i < 4 then Except.error "boom" else Except.ok "html")).2.1
    "html" (fun i hi => ⟨"boom", by simp [hi]⟩) (by norm_num)

/-- C5 counterexample: the random draw `r = 1/2` is a legal value of
`random.random()`, yet the jitter multiplier `0.5 + r` equals `1`, which is
not below `1`, and at attempt 3 the computed delay equals
`MAX_RETRY_DELAY = 10` — the delay does reach `max_delay`. -/
theorem backoff_jitter_counterexample :
    (0 : ℚ) ≤ 1 / 2 ∧ (1 / 2 : ℚ) < 1 ∧ jitter_factor (1 / 2) = 1 ∧
      ¬ jitter_factor (1 / 2) < 1 ∧ backoff_delay 3 (1 / 2) = MAX_RETRY_DELAY := by
  norm_num [jitter_factor, backoff_delay, MAX_RETRY_DELAY, MIN_RETRY_DELAY]

/-- C5 amended: the delay equals
`min(max_delay, base_delay * 2^attempt) * (0.5 + r)` with the jitter
multiplier ranging over `[0.5, 1.5)` (not `[0.5, 1.0)`), so the delay is
bounded by `1.5 * max_delay = 15` (and may reach `max_delay = 10`). -/
theorem backoff_delay_amended (attempt : Nat) (r : ℚ) (h0 : 0 ≤ r) (h1 : r < 1) :
    backoff_delay attempt r
        = min MAX_RETRY_DELAY (MIN_RETRY_DELAY * 2 ^ attempt) * jitter_factor r ∧
      1 / 2 ≤ jitter_factor r ∧ jitter_factor r < 3 / 2 ∧
      backoff_delay attempt r < 15 := by
  refine ⟨rfl, by unfold jitter_factor; linarith, by unfold jitter_factor; linarith, ?_⟩
  unfold backoff_delay jitter_factor MAX_RETRY_DELAY MIN_RETRY_DELAY
  have hm1 : min (10 : ℚ) (2 * 2 ^ attempt) ≤ 10 := min_le_left _ _
  have hm0 : (0 : ℚ) ≤ min (10 : ℚ) (2 * 2 ^ attempt) :=
    le_min (by norm_num) (by positivity)
  nlinarith

/-- Witness for C5 amended: the bounds at attempt 3 with draw `r = 1/3`. -/
theorem backoff_delay_amended_witness :
    backoff_delay 3 (1 / 3)
        = min MAX_RETRY_DELAY (MIN_RETRY_DELAY * 2 ^ 3) * jitter_factor (1 / 3) ∧
      1 / 2 ≤ jitter_factor (1 / 3) ∧ jitter_factor (1 / 3) < 3 / 2 ∧
      backoff_delay 3 (1 / 3) < 15 :=
  backoff_delay_amended 3 (1 / 3) (by norm_num) (by norm_num)

/-- C7: when the fresh-scrape path runs (forced refresh, or no usable
cache) and the crawl of the catalog root raises, the top-level entry point
returns the fixed built-in sample set of exactly 5 records with
`was_freshly_crawled = false`, neither empty nor an error. -/
theorem root_failure_fallback (fr : Bool) (cache : Option (List Assessment × ℚ))
    (hf : reaches_fresh fr cache) :
    scrape_all_shl_assessments fr cache (Except.error ())
        = ⟨sample_data, false, false⟩ ∧
      sample_data.length = 5 := by
  refine ⟨?_, rfl⟩
  cases fr with
  | true => rfl
  | false =>
    cases cache with
    | none => rfl
    | some c =>
      rcases hf with h | h | h
      · exact absurd h (by simp)
      · exact absurd h (by simp)
      · obtain ⟨recs, age⟩ := c
        simp [scrape_all_shl_assessments, h (recs, age) rfl, fresh_scrape_path]

/-- Witness for C7: a forced refresh whose crawl raises yields the 5 sample
records, not freshly crawled. -/
theorem root_failure_fallback_witness :
    scrape_all_shl_assessments true none (Except.error ())
        = ⟨sample_data, false, false⟩ ∧
      sample_data.length = 5 :=
  root_failure_fallback true none (Or.inl rfl)

/-- C10: when the fresh-scrape path runs and the scrape completes without
raising but yields an empty list, no cache file is saved and the result is
the sample set with `was_freshly_crawled = false` — byte-for-byte the same
outcome as a total crawl failure. -/
theorem empty_crawl_fallback (fr : Bool) (cache : Option (List Assessment × ℚ))
    (hf : reaches_fresh fr cache) :
    scrape_all_shl_assessments fr cache (Except.ok [])
        = ⟨sample_data, false, false⟩ ∧
      scrape_all_shl_assessments fr cache (Except.ok [])
        = scrape_all_shl_assessments fr cache (Except.error ()) := by
  refine ⟨?_, ?_⟩ <;>
  · cases fr with
    | true => rfl
    | false =>
      cases cache with
      | none => rfl
      | some c =>
        rcases hf with h | h | h
        · exact absurd h (by simp)
        · exact absurd h (by simp)
        · obtain ⟨recs, age⟩ := c
          simp [scrape_all_shl_assessments, h (recs, age) rfl, fresh_scrape_path]

/-- Witness for C10: a forced refresh whose crawl returns no records yields
the sample fallback, unsaved and marked not fresh. -/
theorem empty_crawl_fallback_witness :
    scrape_all_shl_assessments true none (Except.ok [])
        = ⟨sample_data, false, false⟩ ∧
      scrape_all_shl_assessments true none (Except.ok [])
        = scrape_all_shl_assessments true none (Except.error ()) :=
  empty_crawl_fallback true none (Or.inl rfl)

/-- When the record name contains no recognised technology keyword, the
technical-skills loop of `_parse_table_row` appends nothing. -/
theorem add_tech_noop (name : String) (ts : List String)
    (h : ∀ k ∈ techKeywords, isSub (strLower k).toList (strLower name).toList = false) :
    add_tech_skills name ts = ts := by
  have h1 := h "Java" (by simp [techKeywords])
  have h2 := h "Python" (by simp [techKeywords])
  have h3 := h "SQL" (by simp [techKeywords])
  have h4 := h "JavaScript" (by simp [techKeywords])
  have h5 := h ".NET" (by simp [techKeywords])
  have h6 := h "C#" (by simp [techKeywords])
  simp only [String.toList] at h1 h2 h3 h4 h5 h6
  simp [add_tech_skills, techKeywords, h1, h2, h3, h4, h5, h6]

/-- C8: on a 4-cell row whose first cell holds a link and whose name carries
no technology keyword, a column-3 cell text `"AP"` parses to exactly
`["Ability & Aptitude", "Personality & Behavior"]`, and `"Xyz"` (no code
letters, no comma) parses to exactly `["Xyz"]`. -/
theorem category_codes_roundtrip (t h : String) (c1 c2 : Cell)
    (hname : ∀ k ∈ techKeywords,
      isSub (strLower k).toList (strLower (strTrim t)).toList = false) :
    (parse_table_row [⟨some (t, h), false, ""⟩, c1, c2, ⟨none, false, "AP"⟩]).map
        (fun r => r.test_type)
      = some ["Ability & Aptitude", "Personality & Behavior"] ∧
    (parse_table_row [⟨some (t, h), false, ""⟩, c1, c2, ⟨none, false, "Xyz"⟩]).map
        (fun r => r.test_type)
      = some ["Xyz"] := by
  have hAP : parse_test_types "AP" (strTrim t)
      = ["Ability & Aptitude", "Personality & Behavior"] := by
    rw [show parse_test_types "AP" (strTrim t)
        = add_tech_skills (strTrim t) ["Ability & Aptitude", "Personality & Behavior"]
      from rfl]
    exact add_tech_noop _ _ hname
  have hX : parse_test_types "Xyz" (strTrim t) = ["Xyz"] := by
    rw [show parse_test_types "Xyz" (strTrim t)
        = add_tech_skills (strTrim t) ["Xyz"] from rfl]
    exact add_tech_noop _ _ hname
  constructor
  · simp [parse_table_row, show strTrim "AP" = "AP" from by decide, hAP]
  · simp [parse_table_row, show strTrim "Xyz" = "Xyz" from by decide, hX]

/-- Witness for C8: the round trip on a row named "Verbal Reasoning". -/
theorem category_codes_roundtrip_witness :
    (parse_table_row [⟨some ("Verbal Reasoning", "/x"), false, ""⟩, ⟨none, false, ""⟩,
        ⟨none, false, ""⟩, ⟨none, false, "AP"⟩]).map (fun r => r.test_type)
      = some ["Ability & Aptitude", "Personality & Behavior"] ∧
    (parse_table_row [⟨some ("Verbal Reasoning", "/x"), false, ""⟩, ⟨none, false, ""⟩,
        ⟨none, false, ""⟩, ⟨none, false, "Xyz"⟩]).map (fun r => r.test_type)
      = some ["Xyz"] :=
  category_codes_roundtrip "Verbal Reasoning" "/x" ⟨none, false, ""⟩ ⟨none, false, ""⟩
    (by decide)

/-- C2 counterexample: a 4-cell row whose first cell contains a link with
empty text and empty `href` is not dropped — `_parse_table_row` returns a
record whose name is the empty string and whose URL is `""`, which is not
absolute. -/
theorem table_row_empty_name_counterexample :
    (parse_table_row [⟨some ("", ""), false, ""⟩, ⟨none, false, ""⟩, ⟨none, false, ""⟩,
        ⟨none, false, "A"⟩]).map (fun r => (r.name, strStarts r.url "http"))
      = some ("", false) := by decide

/-- C2 amended: a table row whose first cell holds a link with non-blank
text and a non-empty `href` that either already starts with `http` or is a
scheme-less reference yields a record with a non-empty name and an absolute
(`http`-prefixed) URL, relative references having been resolved against the
catalog root. -/
theorem table_row_name_url_amended (cells : List Cell) (c0 : Cell) (t h : String)
    (hhead : cells.head? = some c0) (hlink : c0.link = some (t, h))
    (hname : strTrim t ≠ "") (hhref : h ≠ "")
    (hscheme : strStarts h "http" = true ∨ hasSchemeB h = false) :
    (parse_table_row cells).isSome = true ∧
      ∀ r, parse_table_row cells = some r →
        r.name ≠ "" ∧ strStarts r.url "http" = true := by
  simp only [parse_table_row, hhead, hlink]
  refine ⟨rfl, ?_⟩
  intro r hr
  rw [Option.some.injEq] at hr
  subst hr
  refine ⟨hname, ?_⟩
  by_cases hst : strStarts h "http" = true
  · simp [hst]
  · rcases hscheme with hs | hs
    · exact absurd hs hst
    · simp only [Bool.not_eq_true] at hst
      simp [hst, hhref]
      exact urljoin_base_starts_http h hs

/-- Witness for C2 amended: a row named "Test" with relative `href` `/x`
resolves to an absolute URL. -/
theorem table_row_name_url_amended_witness :
    (parse_table_row [⟨some ("Test", "/x"), false, ""⟩]).isSome = true ∧
      (({name := "Test", url := "https://www.shl.com/x", remote_testing := false,
          adaptive_irt := false, duration := none, test_type := ["Unspecified"]} :
            Assessment).name ≠ "" ∧
        strStarts "https://www.shl.com/x" "http" = true) := by
  have hmain := table_row_name_url_amended [⟨some ("Test", "/x"), false, ""⟩]
    ⟨some ("Test", "/x"), false, ""⟩ "Test" "/x" rfl rfl (by decide) (by decide)
    (Or.inr (by decide))
  exact ⟨hmain.1, hmain.2 _ (by decide)⟩

/-- The `"Unspecified"` fallback of `_parse_table_row` never yields an empty
category list. -/
theorem unspecified_fallback_ne_nil (tt : List String) :
    (if tt = [] then ["Unspecified"] else tt) ≠ [] := by
  split_ifs with h
  · simp
  · exact h

/-- Python's `split(",")` always yields at least one piece. -/
theorem splitCommaChars_ne_nil (cs : List Char) : splitCommaChars cs ≠ [] := by
  cases cs with
  | nil => simp [splitCommaChars]
  | cons c rest =>
    simp only [splitCommaChars]
    split_ifs
    · simp
    · cases hsp : splitCommaChars rest <;> simp

/-- C9 counterexample: a card with a name and a link but no type element
produces a record whose category list is empty — the card path has no
`"Unspecified"` fallback. -/
theorem card_empty_categories_counterexample :
    (parse_product_card ⟨some "Demo", some "https://www.shl.com/d/", none, none,
        false, false⟩).map (fun r => r.test_type)
      = some [] := by decide

/-- C9 amended: every record from the table-row path has at least one
category (`"Unspecified"` when no signal is found); a record from the card
path has at least one category whenever the card carries a type element
(absent one, the card path can yield an empty category list, as the
counterexample shows). -/
theorem categories_nonempty_amended :
    (∀ cells r, parse_table_row cells = some r → r.test_type ≠ []) ∧
      (∀ card r ty, parse_product_card card = some r → card.typeText = some ty →
        r.test_type ≠ []) := by
  constructor
  · intro cells r hr
    rcases cells with _ | ⟨c0, rest⟩
    · simp [parse_table_row] at hr
    · simp only [parse_table_row, List.head?_cons] at hr
      cases hl : c0.link with
      | none => rw [hl] at hr; simp at hr
      | some p =>
        obtain ⟨t, h⟩ := p
        rw [hl] at hr
        simp only [Option.some.injEq] at hr
        subst hr
        exact unspecified_fallback_ne_nil _
  · intro card r ty hr hty
    unfold parse_product_card at hr
    rw [hty] at hr
    rw [Option.ite_none_right_eq_some, Option.some.injEq] at hr
    obtain ⟨-, hr⟩ := hr
    subst hr
    simp only [ne_eq, List.map_eq_nil_iff, splitComma]
    intro hcontra
    exact splitCommaChars_ne_nil _ (by simpa using hcontra)

/-- Witness for C9 amended: a table-row record and a typed card record, each
with a non-empty category list. -/
theorem categories_nonempty_amended_witness :
    (({name := "T", url := "https://www.shl.com/x", remote_testing := false,
        adaptive_irt := false, duration := none,
        test_type := ["Unspecified"]} : Assessment).test_type ≠ []) ∧
      (({name := "Demo", url := "https://www.shl.com/d/", remote_testing := false,
          adaptive_irt := false, duration := none,
          test_type := ["Personality"]} : Assessment).test_type ≠ []) :=
  ⟨categories_nonempty_amended.1 [⟨some ("T", "/x"), false, ""⟩] _ (by decide),
   categories_nonempty_amended.2 ⟨some "Demo", some "https://www.shl.com/d/",
     some "Personality", none, false, false⟩ _ "Personality" (by decide) rfl⟩

/-- Every record kept by the first-wins dedup dictionary is the first
occurrence of its URL in the input (among URLs not already seen). -/
theorem dedup_go_mem (rs : List Assessment) : ∀ seen r, r ∈ dedup_go seen rs →
    r.url ∉ seen ∧ rs.find? (fun x => x.url == r.url) = some r := by
  induction rs with
  | nil => intro seen r hr; simp [dedup_go] at hr
  | cons x rest ih =>
    intro seen r hr
    simp only [dedup_go] at hr
    by_cases hx : seen.contains x.url = true
    · rw [if_pos hx] at hr
      obtain ⟨h1, h2⟩ := ih seen r hr
      have hxmem : x.url ∈ seen := by simpa using hx
      have hne : ¬ (x.url == r.url) = true := by
        simp only [beq_iff_eq]
        intro he
        exact h1 (he ▸ hxmem)
      refine ⟨h1, ?_⟩
      rw [@List.find?_cons_of_neg _ (fun y => y.url == r.url) x rest hne]
      exact h2
    · rw [if_neg hx] at hr
      have hxnot : x.url ∉ seen := by simpa using hx
      rcases List.mem_cons.mp hr with rfl | hr2
      · refine ⟨hxnot, ?_⟩
        rw [@List.find?_cons_of_pos _ (fun y => y.url == r.url) r rest (by simp)]
      · obtain ⟨h1, h2⟩ := ih (x.url :: seen) r hr2
        have hrne : r.url ≠ x.url := fun he => h1 (by rw [he]; exact List.mem_cons_self _ _)
        refine ⟨fun hmem => h1 (List.mem_cons_of_mem _ hmem), ?_⟩
        rw [@List.find?_cons_of_neg _ (fun y => y.url == r.url) x rest
          (by simp only [beq_iff_eq]; exact fun he => hrne he.symm)]
        exact h2

/-- The URLs of the dedup output are pairwise distinct. -/
theorem dedup_go_map_nodup (rs : List Assessment) : ∀ seen,
    ((dedup_go seen rs).map (fun a => a.url)).Nodup := by
  induction rs with
  | nil => intro seen; simp [dedup_go]
  | cons x rest ih =>
    intro seen
    simp only [dedup_go]
    split_ifs with hx
    · exact ih seen
    · simp only [List.map_cons, List.nodup_cons]
      refine ⟨?_, ih (x.url :: seen)⟩
      intro hmem
      rw [List.mem_map] at hmem
      obtain ⟨r, hr, hurl⟩ := hmem
      exact (dedup_go_mem rest (x.url :: seen) r hr).1 (hurl ▸ List.mem_cons_self _ _)

/-- Zipping a list with a map of itself and mapping is a single map. -/
theorem zip_map_self {α β γ : Type} (g : α → β) (f : α × β → γ) :
    ∀ rs : List α, (rs.zip (rs.map g)).map f = rs.map (fun a => f (a, g a)) := by
  intro rs
  induction rs with
  | nil => rfl
  | cons x rest ih => simp only [List.map_cons, List.zip_cons_cons, ih]

/-- The two-loop duration pass is an index-wise update. -/
theorem assign_durations_eq_map (e : String → Option Nat) (rs : List Assessment) :
    assign_durations e rs = rs.map (fun a => { a with duration := e a.url }) := by
  unfold assign_durations
  exact zip_map_self _ _ rs

/-- C1: in the final output of `scrape_all_shl_assessments`, identity URLs
are pairwise distinct, and every output record is (in its non-duration
fields) the first-seen raw record with its URL — `find?` returns the first
match in accumulation order. -/
theorem dedup_output_unique (enrich : String → Option Nat) (raw : List Assessment) :
    ((scrape_output enrich raw).map (fun a => a.url)).Nodup ∧
      ∀ r ∈ scrape_output enrich raw,
        ∃ w, raw.find? (fun x => x.url == r.url) = some w ∧ sameNonDuration w r := by
  have hout : scrape_output enrich raw
      = (dedup_go [] raw).map (fun a => { a with duration := enrich a.url }) :=
    assign_durations_eq_map enrich (dedup_go [] raw)
  constructor
  · rw [hout, List.map_map]
    exact dedup_go_map_nodup raw []
  · intro r hr
    rw [hout, List.mem_map] at hr
    obtain ⟨w, hw, hrw⟩ := hr
    obtain ⟨-, hfind⟩ := dedup_go_mem raw [] w hw
    have hurl : r.url = w.url := by rw [← hrw]
    refine ⟨w, ?_, ?_⟩
    · rw [hurl]; exact hfind
    · rw [← hrw]; exact ⟨rfl, rfl, rfl, rfl, rfl⟩

/-- Witness for C1: three raw records with a duplicated URL `u1` produce an
output with distinct URLs whose `u1` entry is the first-seen record. -/
theorem dedup_output_unique_witness :
    ((scrape_output (fun _ => none) [⟨"A", "u1", false, false, none, ["T"]⟩,
        ⟨"B", "u2", true, false, some 3, ["U"]⟩,
        ⟨"A2", "u1", false, true, none, ["V"]⟩]).map (fun a => a.url)).Nodup ∧
      (∃ w, ([⟨"A", "u1", false, false, none, ["T"]⟩,
          ⟨"B", "u2", true, false, some 3, ["U"]⟩,
          ⟨"A2", "u1", false, true, none, ["V"]⟩] : List Assessment).find?
            (fun x => x.url == (⟨"A", "u1", false, false, none, ["T"]⟩ : Assessment).url)
          = some w ∧ sameNonDuration w ⟨"A", "u1", false, false, none, ["T"]⟩) :=
  ⟨(dedup_output_unique (fun _ => none) _).1,
   (dedup_output_unique (fun _ => none) _).2 _ (by decide)⟩

/-- C3 counterexample: the card parser extracts a record with
`duration = 30` inline, yet the duration pass of
`scrape_all_shl_assessments` invokes the enricher on it anyway and replaces
the extracted value with the enricher's result (`None` here) — a set
duration does not survive to the final output. -/
theorem duration_overwrite_counterexample :
    (parse_product_card ⟨some "SHL Demo", some "https://www.shl.com/x/",
        some "Personality", some "30 min", true, false⟩).map (fun r => r.duration)
      = some (some 30) ∧
      (scrape_output (fun _ => none)
          [⟨"SHL Demo", "https://www.shl.com/x/", true, false, some 30, ["Personality"]⟩]).map
          (fun r => r.duration)
        = [none] := by
  constructor <;> decide

/-- C3 amended: the duration pass runs the enricher for every deduplicated
record, already-set durations included, and each record's final duration is
exactly the enricher's result for its URL; all other fields are
untouched. -/
theorem enrichment_overwrites_all (enrich : String → Option Nat) (rs : List Assessment) :
    (assign_durations enrich rs).map (fun r => r.duration)
        = rs.map (fun r => enrich r.url) ∧
      (assign_durations enrich rs).map
          (fun r => (r.name, r.url, r.remote_testing, r.adaptive_irt, r.test_type))
        = rs.map (fun r => (r.name, r.url, r.remote_testing, r.adaptive_irt, r.test_type)) := by
  constructor <;>
  · rw [assign_durations_eq_map, List.map_map]
    rfl

/-- Unfolding `scrape_page` when its own fetch raises. -/
theorem scrape_page_none (fetch : String → Option String)
    (tableOf : String → List Assessment) (disc : String → List String)
    (maxDepth : Nat) (url : String) (depth : Nat) (visited : List String)
    (hf : fetch url = none) :
    scrape_page fetch tableOf disc maxDepth url depth visited
      = ⟨none, visited, [(url, depth)]⟩ := by
  unfold scrape_page
  rw [hf]

/-- Unfolding `scrape_page` on a successful fetch below the depth limit. -/
theorem scrape_page_some_lt (fetch : String → Option String)
    (tableOf : String → List Assessment) (disc : String → List String)
    (maxDepth : Nat) (url : String) (depth : Nat) (visited : List String)
    (html : String) (hf : fetch url = some html) (hlt : depth < maxDepth) :
    scrape_page fetch tableOf disc maxDepth url depth visited
      = ⟨some (tableOf html
            ++ (scrape_children fetch tableOf disc maxDepth
                ((disc html).filter (fun u => !visited.contains u)) depth visited).records),
          (scrape_children fetch tableOf disc maxDepth
            ((disc html).filter (fun u => !visited.contains u)) depth visited).visited,
          (url, depth)
            :: (scrape_children fetch tableOf disc maxDepth
                ((disc html).filter (fun u => !visited.contains u)) depth visited).fetches⟩ := by
  unfold scrape_page
  rw [hf]
  simp only [hlt, dif_pos]

/-- Unfolding `scrape_page` on a successful fetch at the depth limit:
no pagination is discovered and no recursion happens. -/
theorem scrape_page_some_ge (fetch : String → Option String)
    (tableOf : String → List Assessment) (disc : String → List String)
    (maxDepth : Nat) (url : String) (depth : Nat) (visited : List String)
    (html : String) (hf : fetch url = some html) (hge : ¬ depth < maxDepth) :
    scrape_page fetch tableOf disc maxDepth url depth visited
      = ⟨some (tableOf html), visited, [(url, depth)]⟩ := by
  unfold scrape_page
  rw [hf]
  simp only [hge, dif_neg, not_false_iff]

/-- The pagination loop on an empty URL list. -/
theorem scrape_children_nil (fetch : String → Option String)
    (tableOf : String → List Assessment) (disc : String → List String)
    (maxDepth : Nat) (depth : Nat) (visited : List String) :
    scrape_children fetch tableOf disc maxDepth [] depth visited
      = ⟨[], visited, []⟩ := by
  unfold scrape_children
  rfl

/-- One step of the pagination loop. -/
theorem scrape_children_cons (fetch : String → Option String)
    (tableOf : String → List Assessment) (disc : String → List String)
    (maxDepth : Nat) (u : String) (rest : List String) (depth : Nat)
    (visited : List String) :
    scrape_children fetch tableOf disc maxDepth (u :: rest) depth visited
      = if visited.contains u then
          scrape_children fetch tableOf disc maxDepth rest depth visited
        else
          ⟨(scrape_page fetch tableOf disc maxDepth u (depth + 1) (u :: visited)).out.getD []
              ++ (scrape_children fetch tableOf disc maxDepth rest depth
                  (scrape_page fetch tableOf disc maxDepth u (depth + 1)
                    (u :: visited)).visited).records,
            (scrape_children fetch tableOf disc maxDepth rest depth
              (scrape_page fetch tableOf disc maxDepth u (depth + 1)
                (u :: visited)).visited).visited,
            (scrape_page fetch tableOf disc maxDepth u (depth + 1) (u :: visited)).fetches
              ++ (scrape_children fetch tableOf disc maxDepth rest depth
                  (scrape_page fetch tableOf disc maxDepth u (depth + 1)
                    (u :: visited)).visited).fetches⟩ := by
  conv_lhs => unfold scrape_children

/-- If every child call (at `depth + 1`) fetches only at depths within the
limit, so does the whole pagination loop at `depth`. -/
theorem children_bound (fetch : String → Option String)
    (tableOf : String → List Assessment) (disc : String → List String)
    (maxDepth depth : Nat)
    (hP : ∀ url visited, ∀ p ∈ (scrape_page fetch tableOf disc maxDepth url
        (depth + 1) visited).fetches, p.2 ≤ maxDepth) :
    ∀ urls visited, ∀ p ∈ (scrape_children fetch tableOf disc maxDepth urls depth
        visited).fetches, p.2 ≤ maxDepth := by
  intro urls
  induction urls with
  | nil =>
    intro visited p hp
    rw [scrape_children_nil] at hp
    simp at hp
  | cons u rest ih =>
    intro visited p hp
    rw [scrape_children_cons] at hp
    by_cases hv : visited.contains u = true
    · rw [if_pos hv] at hp
      exact ih visited p hp
    · rw [if_neg hv] at hp
      simp only [List.mem_append] at hp
      rcases hp with hp | hp
      · exact hP u (u :: visited) p hp
      · exact ih _ p hp

/-- Every fetch attempt performed by `scrape_page` started at a depth within
the limit stays within the limit (strong induction on the remaining depth
budget `maxDepth - depth`). -/
theorem page_bound (fetch : String → Option String)
    (tableOf : String → List Assessment) (disc : String → List String)
    (maxDepth : Nat) :
    ∀ n depth, maxDepth - depth ≤ n → depth ≤ maxDepth →
      ∀ url visited p,
        p ∈ (scrape_page fetch tableOf disc maxDepth url depth visited).fetches →
        p.2 ≤ maxDepth := by
  intro n
  induction n with
  | zero =>
    intro depth h1 h2 url visited p hp
    cases hf : fetch url with
    | none =>
      rw [scrape_page_none fetch tableOf disc maxDepth url depth visited hf] at hp
      rw [List.mem_singleton] at hp
      subst hp
      simpa using h2
    | some html =>
      rw [scrape_page_some_ge fetch tableOf disc maxDepth url depth visited html hf
        (by omega)] at hp
      rw [List.mem_singleton] at hp
      subst hp
      simpa using h2
  | succ n ih =>
    intro depth h1 h2 url visited p hp
    cases hf : fetch url with
    | none =>
      rw [scrape_page_none fetch tableOf disc maxDepth url depth visited hf] at hp
      rw [List.mem_singleton] at hp
      subst hp
      simpa using h2
    | some html =>
      by_cases hlt : depth < maxDepth
      · rw [scrape_page_some_lt fetch tableOf disc maxDepth url depth visited html hf
          hlt] at hp
        simp only [List.mem_cons] at hp
        rcases hp with rfl | hp
        · simpa using h2
        · exact children_bound fetch tableOf disc maxDepth depth
            (fun url' visited' p' hp' =>
              ih (depth + 1) (by omega) (by omega) url' visited' p' hp')
            _ _ p hp
      · rw [scrape_page_some_ge fetch tableOf disc maxDepth url depth visited html hf
          hlt] at hp
        rw [List.mem_singleton] at hp
        subst hp
        simpa using h2

/-- C6: a crawl that starts at the catalog root (depth 0, root pre-seeded in
`processed_urls`) performs no fetch at a recursion depth exceeding
`max_depth`; the traversal itself is total (the model is accepted by
well-founded recursion on `maxDepth - depth`), so it terminates whenever
each page yields finitely many pagination URLs. -/
theorem crawl_depth_bound (fetch : String → Option String)
    (tableOf : String → List Assessment) (disc : String → List String)
    (maxDepth : Nat) :
    ∀ p ∈ (scrape_page fetch tableOf disc maxDepth BASE_URL 0 [BASE_URL]).fetches,
      p.2 ≤ maxDepth :=
  fun p hp => page_bound fetch tableOf disc maxDepth maxDepth 0 (by omega) (by omega)
    BASE_URL [BASE_URL] p hp

/-- Witness for C6: a root that paginates once under `max_depth = 2` fetches
the second page at depth 1, within the bound. -/
theorem crawl_depth_bound_witness :
    ("p2", 1) ∈ (scrape_page (fun _ => some "h") (fun _ => []) (fun _ => ["p2"]) 2
        BASE_URL 0 [BASE_URL]).fetches ∧
      (("p2", 1) : String × Nat).2 ≤ 2 := by
  have hmem : ("p2", 1) ∈ (scrape_page (fun _ => some "h") (fun _ => [])
      (fun _ => ["p2"]) 2 BASE_URL 0 [BASE_URL]).fetches := by
    simp [scrape_page, scrape_children, BASE_URL]
  exact ⟨hmem, crawl_depth_bound (fun _ => some "h") (fun _ => []) (fun _ => ["p2"]) 2
    ("p2", 1) hmem⟩
